import Mathlib

/-!
Verification development for the `netconfutils` package: a shallow embedding of
`netconfutils/netconfconverter.py` (class `NetconfConverter`) and of the parts of
`netconfutils/configmodel.py` (class `ConfigModel`) that the verified properties
touch, together with proofs about them.

Python data is embedded as follows: Python `str` becomes `String`, Python lists
become `List`, Python dicts become association lists (`List (key × value)`, first
binding wins, mirroring unique-key dicts), raised exceptions become `Except`
results, and the mutation of the lxml `TreeBuilder` and of the element-name stack
becomes explicit state passing.  String primitives used by the source
(`str.split`, `str.strip`, slicing, `startswith`/`endswith`) are re-implemented
over character lists so that every definition evaluates by kernel reduction.
-/

/-- Association-list lookup; embeds Python dict lookup (`d[k]` / `k in d`). -/
def lookupKV {α : Type} : List (String × α) → String → Option α
  | [], _ => none
  | (k, v) :: rest, key => if k = key then some v else lookupKV rest key

/-- Worker for `pySplit`: splits on whitespace runs, dropping empty pieces,
with `cur` holding the (reversed) characters of the token being read. -/
def pySplitChars : List Char → List Char → List String
  | [], cur => if cur.isEmpty then [] else [⟨cur.reverse⟩]
  | c :: cs, cur =>
    if c.isWhitespace then
      (if cur.isEmpty then pySplitChars cs [] else ⟨cur.reverse⟩ :: pySplitChars cs [])
    else pySplitChars cs (c :: cur)

/-- Embeds Python `str.split()` (no argument): split on whitespace runs,
never producing empty tokens.  Used by `_process_config_line`. -/
def pySplit (s : String) : List String := pySplitChars s.data []

/-- Worker for `pySplitLines`. -/
def splitNlChars : List Char → List Char → List String
  | [], cur => [⟨cur.reverse⟩]
  | c :: cs, cur =>
    if c = '\n' then ⟨cur.reverse⟩ :: splitNlChars cs [] else splitNlChars cs (c :: cur)

/-- Embeds Python `str.split('\n')` as used by `_convert_config_string_to_list`. -/
def pySplitLines (s : String) : List String := splitNlChars s.data []

/-- Embeds Python `str.strip()`: remove leading and trailing whitespace. -/
def pyStrip (s : String) : String :=
  ⟨((s.data.dropWhile Char.isWhitespace).reverse.dropWhile Char.isWhitespace).reverse⟩

/-- Embeds the Python slice `s[1:]`. -/
def stripFirst (s : String) : String := ⟨s.data.drop 1⟩

/-- Embeds the Python slice `s[:-1]`. -/
def stripLast (s : String) : String := ⟨s.data.dropLast⟩

/-- Embeds `s.startswith('"')`. -/
def startsWithQuote (s : String) : Bool := s.data.head? == some '"'

/-- Embeds `s.endswith('"')`. -/
def endsWithQuote (s : String) : Bool := s.data.getLast? == some '"'

/-- Embeds `NetconfConverter._convert_stack_to_xpath`: `'/'.join(stack)`. -/
def joinPath (stack : List String) : String := String.intercalate "/" stack

/-- Embeds `NetconfConverter._add_indent`'s indent string: `len(stack) * '    '`. -/
def indentOf (stack : List String) : String := String.join (List.replicate stack.length "    ")

/-- Python exceptions that the embedded code can raise. -/
inductive PyError where
  | indexError
  | keyError (k : String)
  | assertionError (msg : String)
  | typeError (msg : String)
  | attributeError (msg : String)
  | configModelParseError (msg : String)
  | recursionError
deriving DecidableEq, Repr

/-- The string `str(e)` produces for each embedded exception (for `KeyError`,
Python renders the repr of the missing key, hence the quotes). -/
def pyMessage : PyError → String
  | .indexError => "list index out of range"
  | .keyError k => "'" ++ k ++ "'"
  | .assertionError msg => msg
  | .typeError msg => msg
  | .attributeError msg => msg
  | .configModelParseError msg => msg
  | .recursionError => "maximum recursion depth exceeded"

/-- The lookup tables of `configmodel.ConfigModel` that `NetconfConverter`
consumes, keyed by slash-joined xpath strings exactly as in the source. -/
structure ConfigModel where
  namespace_map : List (String × (String × String))
  container_map : List (String × List String)
  identity_map : List (String × List (String × String))

/-- Worker for `resolveNS`, operating on the reversed path so that popping the
trailing segment is structural recursion on the list. -/
def resolveNSAux (m : ConfigModel) : List String → Option (String × String)
  | [] => lookupKV m.namespace_map (joinPath [])
  | s :: rest =>
    match lookupKV m.namespace_map (joinPath (s :: rest).reverse) with
    | some v => some v
    | none => resolveNSAux m rest

/-- The namespace-resolution walk inside `NetconfConverter._get_element_name`
(lines 205-208): starting from the given path, look the slash-joined path up in
`namespace_map` and pop trailing segments (`stack_copy.pop()`) until a defined
entry is found; after the path is exhausted the empty path (`''`) is the last
key tried, mirroring the loop's final `if xpath in self.model.namespace_map`. -/
def resolveNS (m : ConfigModel) (path : List String) : Option (String × String) :=
  resolveNSAux m path.reverse

/-- Embeds `NetconfConverter._is_path_container`. -/
def isPathContainer (m : ConfigModel) (stack : List String) (token : String) : Bool :=
  (lookupKV m.container_map (joinPath (stack ++ [token]))).isSome

/-- Embeds `NetconfConverter._is_path_identity_type`. -/
def isPathIdentityType (m : ConfigModel) (stack : List String) (token : String) : Bool :=
  (lookupKV m.identity_map (joinPath (stack ++ [token]))).isSome

/-- Embeds `NetconfConverter._is_path_augmented_type`. -/
def isPathAugmentedType (m : ConfigModel) (stack : List String) (token : String) : Bool :=
  (lookupKV m.namespace_map (joinPath (stack ++ [token]))).isSome

/-- An XML element name: either an lxml `QName(namespace_uri, tag)` or the bare
token string that `_get_element_name` returns when no namespace is found. -/
inductive ElementName where
  | qname (ns : String) (tag : String)
  | plain (tag : String)
deriving DecidableEq, Repr

/-- Embeds `NetconfConverter._get_element_name`.  The source first appends the
token when the full path has its own `namespace_map` entry, then runs the
popping loop and returns `QName(uri, token)` on a hit and the bare token
otherwise; the loop plus final membership test is exactly `resolveNS`. -/
def getElementName (m : ConfigModel) (stack : List String) (token : String) : ElementName :=
  let stackCopy := if isPathAugmentedType m stack token then stack ++ [token] else stack
  match resolveNS m stackCopy with
  | some tagData => .qname tagData.2 token
  | none => .plain token

/-- Embeds `NetconfConverter._get_nsmap`: exact-path lookup, `KeyError` giving
the empty mapping. -/
def getNsmap (m : ConfigModel) (stack : List String) (token : String) : List (String × String) :=
  match lookupKV m.namespace_map (joinPath (stack ++ [token])) with
  | some pn => [(pn.1, pn.2)]
  | none => []

/-- Embeds `NetconfConverter._check_prefix`: `identity_map[xpath][tokens[1]]`,
with the two dict accesses and the `tokens[1]` index each able to raise. -/
def checkPfx (m : ConfigModel) (stack : List String) (tokens : List String) :
    Except PyError String :=
  match tokens with
  | [] => .error .indexError
  | t :: rest =>
    let xpath := joinPath (stack ++ [t])
    match lookupKV m.identity_map xpath with
    | none => .error (.keyError xpath)
    | some key =>
      match rest with
      | [] => .error .indexError
      | v :: _ =>
        match lookupKV key v with
        | none => .error (.keyError v)
        | some pfx => .ok pfx

/-- An XML tree node: element (with attributes and namespace declarations) or
character data.  Adjacent character-data children are kept as separate nodes. -/
inductive Node where
  | elem (name : ElementName) (attrs : List (ElementName × String))
      (nsmap : List (String × String)) (children : List Node)
  | text (s : String)
deriving Repr

/-- An element that has been started but not yet ended in the tree builder. -/
structure Frame where
  name : ElementName
  attrs : List (ElementName × String)
  nsmap : List (String × String)
  children : List Node
deriving Repr

/-- State of `lxml.etree.TreeBuilder`: the stack of open elements (innermost
first) and the most recently closed element (`_last`, returned by `close`). -/
structure Builder where
  stack : List Frame
  last : Option Node
deriving Repr

/-- A fresh `etree.TreeBuilder()`. -/
def emptyBuilder : Builder := ⟨[], none⟩

/-- `TreeBuilder.start(tag, attrib, nsmap)`: open a new innermost element. -/
def builderStart (b : Builder) (name : ElementName) (attrs : List (ElementName × String))
    (nsmap : List (String × String)) : Builder :=
  { b with stack := ⟨name, attrs, nsmap, []⟩ :: b.stack }

/-- `TreeBuilder.data(s)`: append character data to the innermost open element.
With no element open the data only affects trailing text (`tail`), which the
produced tree's element content never contains, so it is dropped here. -/
def builderData (b : Builder) (s : String) : Builder :=
  match b.stack with
  | [] => b
  | f :: fs => { b with stack := { f with children := f.children ++ [.text s] } :: fs }

/-- Replace-or-append semantics of `elem.set(key, value)` on an attribute list. -/
def setAttr (attrs : List (ElementName × String)) (key : ElementName) (v : String) :
    List (ElementName × String) :=
  match attrs with
  | [] => [(key, v)]
  | (k, w) :: rest => if k = key then (k, v) :: rest else (k, w) :: setAttr rest key v

/-- `elem.set(key, value)` where `elem` is the element most recently returned by
`TreeBuilder.start`, i.e. the innermost open element. -/
def builderSetTop (b : Builder) (key : ElementName) (v : String) : Builder :=
  match b.stack with
  | [] => b
  | f :: fs => { b with stack := { f with attrs := setAttr f.attrs key v } :: fs }

/-- `TreeBuilder.end(tag)`: close the innermost open element, asserting that its
tag matches (`assert self._last.tag == tag`); popping an empty stack raises
`IndexError`.  The closed element becomes `_last` and is appended to its
parent's children. -/
def builderEnd (b : Builder) (name : ElementName) : Except PyError Builder :=
  match b.stack with
  | [] => .error .indexError
  | f :: fs =>
    if f.name = name then
      let node := Node.elem f.name f.attrs f.nsmap f.children
      match fs with
      | [] => .ok ⟨[], some node⟩
      | g :: gs => .ok ⟨{ g with children := g.children ++ [node] } :: gs, some node⟩
    else .error (.assertionError "end tag mismatch")

/-- `TreeBuilder.close()`: assert that no element is still open and that a
toplevel element was produced, and return it. -/
def builderClose (b : Builder) : Except PyError Node :=
  match b.stack with
  | [] =>
    match b.last with
    | some root => .ok root
    | none => .error (.assertionError "missing toplevel element")
  | _ :: _ => .error (.assertionError "missing end tags")

/-- The NETCONF base namespace used for the synthesized root element and the
`operation` attribute. -/
def netconfBase : String := "urn:ietf:params:xml:ns:netconf:base:1.0"

/-- `NetconfConverter.operation_elem_name`. -/
def operationElemName : ElementName := .qname netconfBase "operation"

/-- The two conditional `elem.set(operation_elem_name, ...)` statements of
`_process_config_tokens`, applied to the element just started. -/
def setOperation (b : Builder) (operation : Option String) : Builder :=
  match operation with
  | some "delete" => builderSetTop b operationElemName "delete"
  | some "create" => builderSetTop b operationElemName "create"
  | _ => b

/-- The attribute list the freshly started element carries after
`setOperation` (its attribute list starts empty). -/
def opAttrs (operation : Option String) : List (ElementName × String) :=
  match operation with
  | some "delete" => [(operationElemName, "delete")]
  | some "create" => [(operationElemName, "create")]
  | _ => []

/-- Embeds `NetconfConverter._process_exit_token`: read `stack[-1]` (raising
`IndexError` on an empty stack), resolve its element name with the still-full
stack, pop, indent with the popped stack, close the element. -/
def processExitToken (m : ConfigModel) (b : Builder) (stack : List String) :
    Except PyError (Builder × List String) :=
  match stack with
  | [] => .error .indexError
  | c :: cr =>
    let token := (c :: cr).getLast (by simp)
    let elementName := getElementName m (c :: cr) token
    let stack' := (c :: cr).dropLast
    let b1 := builderData b (indentOf stack')
    match builderEnd b1 elementName with
    | .error e => .error e
    | .ok b2 => .ok (builderData b2 "\n", stack')

/-- Embeds `NetconfConverter._process_config_tokens`.  The converter object is
used with its `__init__` default `write_object_keys_as_parameters = False`, so
the `_add_key_elements` call in the container branch is dead and not modelled. -/
def processConfigTokens (m : ConfigModel) (b : Builder) (stack : List String)
    (tokens : List String) (operation : Option String) :
    Except PyError (Builder × List String) :=
  match tokens with
  | [] => .error .indexError
  | firstToken :: restTokens =>
    let prefixNsmap := getNsmap m stack firstToken
    if isPathContainer m stack firstToken then
      let b1 := builderData b (indentOf stack)
      let stack' := stack ++ [firstToken]
      let elementName := getElementName m stack' firstToken
      let b2 := setOperation (builderStart b1 elementName [] prefixNsmap) operation
      .ok (builderData b2 "\n", stack')
    else
      let b1 := builderData b (indentOf stack)
      let elementName := getElementName m stack firstToken
      let b2 := setOperation (builderStart b1 elementName [] prefixNsmap) operation
      let dataTokens :=
        if isPathIdentityType m stack firstToken then
          match checkPfx m stack (firstToken :: restTokens) with
          | .error e => Except.error e
          | .ok pfx =>
            match restTokens with
            | [] => Except.error PyError.indexError
            | v :: vrest => Except.ok ((pfx ++ ":" ++ v) :: vrest)
        else Except.ok restTokens
      match dataTokens with
      | .error e => .error e
      | .ok toks =>
        let b3 := builderData b2 (String.intercalate " " toks)
        match builderEnd b3 elementName with
        | .error e => .error e
        | .ok b4 => .ok (builderData b4 "\n", stack)

/-- Embeds the quote handling of `_process_config_line` (lines 92-100): pick
`start_token`/`end_token` (both 0 for a single token, else 1 and `len-1`), and
when `tokens[start_token]` starts and `tokens[end_token]` ends with `"`, strip
the leading quote at `start_token` and then the trailing quote from the current
value at `end_token` (the same token when the two indices coincide). -/
def quoteStrip (tokens : List String) : List String :=
  match tokens with
  | [] => []
  | [t] =>
    if startsWithQuote t && endsWithQuote t then [stripLast (stripFirst t)] else [t]
  | t0 :: t1 :: rest =>
    let lastTok := (t1 :: rest).getLast (by simp)
    if startsWithQuote t1 && endsWithQuote lastTok then
      let tokens1 := (t0 :: t1 :: rest).set 1 (stripFirst t1)
      tokens1.set ((t0 :: t1 :: rest).length - 1)
        (stripLast (tokens1.getD ((t0 :: t1 :: rest).length - 1) ""))
    else t0 :: t1 :: rest

/-- Embeds `NetconfConverter._process_config_line`: tokenize, strip quotes,
dispatch on the first token (`exit` / `delete` / `create` / element). -/
def processConfigLine (m : ConfigModel) (b : Builder) (stack : List String)
    (line : String) : Except PyError (Builder × List String) :=
  match pySplit line with
  | [] => .error .indexError
  | t :: ts =>
    match quoteStrip (t :: ts) with
    | [] => .error .indexError
    | t0 :: rest =>
      if t0 = "exit" then processExitToken m b stack
      else if t0 = "delete" then processConfigTokens m b stack rest (some "delete")
      else if t0 = "create" then processConfigTokens m b stack rest (some "create")
      else processConfigTokens m b stack (t0 :: rest) none

/-- Embeds `NetconfConverter._is_line_empty_or_comment`. -/
def isLineEmptyOrComment (line : String) : Bool :=
  line.data.isEmpty || line.data.head? == some '#'

/-- The error type raised by `_convert_config_list_to_netconf_xml`: the line
number (1-based over all input lines), the offending line's text, and
`str(e)` of the underlying exception; the Python message is their
concatenation `'Error parsing config, line N: "line" : cause'`. -/
structure ConfigParseError where
  lineNumber : Nat
  lineText : String
  cause : String
deriving DecidableEq, Repr

/-- The formatted exception message of `ConfigParseError`. -/
def ConfigParseError.message (e : ConfigParseError) : String :=
  "Error parsing config, line " ++ toString e.lineNumber ++ ": \"" ++ e.lineText ++
    "\" : " ++ e.cause

/-- The `for line_number, config_line in enumerate(config_list, start=1)` loop of
`_convert_config_list_to_netconf_xml`: skip empty/comment lines, process the
others, and on the first exception report that line's number and text. -/
def processLines (m : ConfigModel) :
    List String → Nat → Builder → List String →
    Except (Nat × String × PyError) (Builder × List String)
  | [], _, b, stack => .ok (b, stack)
  | l :: ls, n, b, stack =>
    if isLineEmptyOrComment l then processLines m ls (n + 1) b stack
    else
      match processConfigLine m b stack l with
      | .error e => .error (n, l, e)
      | .ok (b', stack') => processLines m ls (n + 1) b' stack'

/-- The initial builder of `_convert_config_list_to_netconf_xml`: the
synthesized root element is started and a newline written before any config
line is processed. -/
def initBuilder (tag : String) : Builder :=
  builderData (builderStart emptyBuilder (.qname netconfBase tag) [] []) "\n"

/-- Embeds `NetconfConverter._convert_config_list_to_netconf_xml`.  After the
loop the root element is ended and the tree closed; an exception there is
reported with the loop's final `line_number`/`config_line` values (the last
input line; `'(start)'` if there was none, a case that cannot raise). -/
def convertConfigListToNetconfXml (m : ConfigModel) (configList : List String)
    (tag : String) : Except ConfigParseError Node :=
  let configElemName := ElementName.qname netconfBase tag
  match processLines m configList 1 (initBuilder tag) [] with
  | .error (n, l, e) => .error ⟨n, l, pyMessage e⟩
  | .ok (b, _) =>
    match builderEnd b configElemName with
    | .error e =>
      .error ⟨configList.length, configList.getLastD "(start)", pyMessage e⟩
    | .ok b2 =>
      match builderClose (builderData b2 "\n") with
      | .error e =>
        .error ⟨configList.length, configList.getLastD "(start)", pyMessage e⟩
      | .ok root => .ok root

/-- Embeds `NetconfConverter._convert_config_string_to_list`. -/
def convertConfigStringToList (s : String) : List String :=
  (pySplitLines s).map pyStrip

/-- Embeds `NetconfConverter.convert_config_to_netconf_xml` applied to a string
argument (the `isinstance(..., basestring)` branch). -/
def convertConfigStringToNetconfXml (m : ConfigModel) (s : String) (tag : String) :
    Except ConfigParseError Node :=
  convertConfigListToNetconfXml m (convertConfigStringToList s) tag

/-!
Embedding of `configmodel.ConfigModel.parse` and its helpers.  A parsed lxml
element is a `YinElem`; `parse` receives the already-parsed element trees of the
matched schema files in the order the source processes them (the reverse-sorted
glob result).  One step of the source is not modelled: `_resolve_groupings`
splices grouping bodies through aliased mutable lxml nodes; it is the identity
on any file containing no `uses` element, and every input any theorem below
evaluates `parse` on is of that form.
-/

/-- A parsed XML element as lxml presents it: qualified tag string, attribute
dict, child elements. -/
structure YinElem where
  tag : String
  attrib : List (String × String)
  children : List YinElem
deriving Repr

/-- Worker for `pyIn`: does `hay` start with `needle`? -/
def listStartsWith : List Char → List Char → Bool
  | _, [] => true
  | [], _ :: _ => false
  | h :: hs, n :: ns_ => h == n && listStartsWith hs ns_

/-- Worker for `pyIn`: does `hay` contain `needle` as a contiguous sublist? -/
def listContainsSub (hay needle : List Char) : Bool :=
  match hay with
  | [] => needle.isEmpty
  | _ :: t => listStartsWith hay needle || listContainsSub t needle

/-- Embeds the Python substring test `needle in hay`. -/
def pyIn (needle hay : String) : Bool := listContainsSub hay.data needle.data

/-- Worker for `pySplitOn`. -/
def splitOnChars (sep : Char) : List Char → List Char → List String
  | [], cur => [⟨cur.reverse⟩]
  | c :: cs, cur =>
    if c = sep then ⟨cur.reverse⟩ :: splitOnChars sep cs [] else splitOnChars sep cs (c :: cur)

/-- Embeds Python `str.split(sep)` for a one-character separator. -/
def pySplitOn (sep : Char) (s : String) : List String := splitOnChars sep s.data []

/-- Embeds `ConfigModel._strip_ns_prefix_if_present`:
`token.split(':')[1]` when the token contains a colon. -/
def stripNsPfxIfPresent (token : String) : String :=
  match pySplitOn ':' token with
  | _ :: second :: _ => second
  | _ => token

/-- Dict item assignment `d[k] = v` (replace existing binding or append). -/
def setKV {α : Type} : List (String × α) → String → α → List (String × α)
  | [], key, v => [(key, v)]
  | (k, w) :: rest, key, v =>
    if k = key then (k, v) :: rest else (k, w) :: setKV rest key v

/-- The YIN namespace of `configmodel.ConfigModel`. -/
def yinNamespace : String := "urn:ietf:params:xml:ns:yang:yin:1"

/-- `str(etree.QName(ns, name))`, i.e. lxml's `\x7bns\x7dname` qualified tag. -/
def qnameStr (ns name : String) : String := "\x7b" ++ ns ++ "\x7d" ++ name

/-- `ConfigModel.NAMESPACE_TAG`. -/
def namespaceTag : String := qnameStr yinNamespace "namespace"

/-- `ConfigModel.PREFIX_TAG`. -/
def prefixTag : String := qnameStr yinNamespace "prefix"

/-- `ConfigModel.IDENTITY_TAG`. -/
def identityTag : String := qnameStr yinNamespace "identity"

/-- `ConfigModel.AUGMENT_TAG`. -/
def augmentTag : String := qnameStr yinNamespace "augment"

/-- `ConfigModel.CHOICE_TAG`. -/
def choiceTag : String := qnameStr yinNamespace "choice"

/-- `ConfigModel.CASE_TAG`. -/
def caseTag : String := qnameStr yinNamespace "case"

/-- `ConfigModel.CONTAINER_TAG`. -/
def containerTag : String := qnameStr yinNamespace "container"

/-- `ConfigModel.LIST_TAG`. -/
def listTag : String := qnameStr yinNamespace "list"

/-- `ConfigModel.KEY_TAG`. -/
def keyTag : String := qnameStr yinNamespace "key"

/-- `ConfigModel.LEAF_TAG`. -/
def leafTag : String := qnameStr yinNamespace "leaf"

/-- `ConfigModel.LEAF_LIST_TAG`. -/
def leafListTag : String := qnameStr yinNamespace "leaf-list"

/-- `ConfigModel.TYPE_TAG`. -/
def typeTag : String := qnameStr yinNamespace "type"

/-- `ConfigModel.BASE_TAG`. -/
def baseTag : String := qnameStr yinNamespace "base"

/-- `ConfigModel.PREFIX_ATTR` (`str(QName('configmodel', 'prefix'))`). -/
def pfxAttr : String := qnameStr "configmodel" "prefix"

/-- `ConfigModel.NS_ATTR` (`str(QName('configmodel', 'ns'))`). -/
def nsAttr : String := qnameStr "configmodel" "ns"

/-- `elem.attrib[k]`, raising `KeyError` when absent. -/
def pyAttr (e : YinElem) (k : String) : Except PyError String :=
  match lookupKV e.attrib k with
  | some v => .ok v
  | none => .error (.keyError k)

/-- `elem.find(tag)` restricted to direct children (also `model.find('/tag')`
for a document whose root element is the given node). -/
def findChildByTag (e : YinElem) (t : String) : Option YinElem :=
  e.children.find? (fun c => c.tag == t)

mutual

/-- `model.findall('//tag')` restricted to one element: the element itself when
its tag matches, followed by its matching descendants, in document order. -/
def findDescendantsElem (t : String) : YinElem → List YinElem
  | .mk tag attrib children =>
    (if tag == t then [YinElem.mk tag attrib children] else []) ++
      findDescendantsList t children

/-- `model.findall('//tag')`: all elements with the given tag among the strict
descendants of the root, in document (preorder) order. -/
def findDescendantsList (t : String) : List YinElem → List YinElem
  | [] => []
  | c :: cs => findDescendantsElem t c ++ findDescendantsList t cs

end

/-- Embeds `ConfigModel._get_global_namespace`: the file-level `namespace` and
`prefix` declarations, each mandatory. -/
def getGlobalNamespace (file : YinElem) : Except PyError (String × String) :=
  match findChildByTag file namespaceTag with
  | none =>
    .error (.configModelParseError "Could not find global namespace value in XML model")
  | some nsElem =>
    match findChildByTag file prefixTag with
    | none =>
      .error (.configModelParseError "Could not find global namespace prefix in XML model")
    | some pElem => do
      let uri ← pyAttr nsElem "uri"
      let v ← pyAttr pElem "value"
      return (uri, v)

/-- Mutable parsing state of a `ConfigModel` instance during `parse`. -/
structure ParseState where
  configRoot : Option YinElem
  configPfx : String
  configNs : String
  xmlChunks : List (String × List YinElem)
  identityElems : List YinElem
deriving Repr

/-- Embeds `ConfigModel._parse_xml_chunk_containers`: each top-level container
whose `name` equals the configured root element name becomes `_config_root`,
also capturing the file's prefix and namespace. -/
def stageContainers (cfgElemName : String) (url pfx : String) :
    ParseState → List YinElem → Except PyError ParseState
  | st, [] => .ok st
  | st, c :: cs => do
    let name ← pyAttr c "name"
    let st' :=
      if name = cfgElemName then
        { st with configRoot := some c, configPfx := pfx, configNs := url }
      else st
    stageContainers cfgElemName url pfx st' cs

/-- Embeds `ConfigModel._parse_xml_chunk_augments`: each `augment` element is
tagged with its file's prefix/namespace and recorded under its `target-node`
path.  (In the source the tag is an in-place mutation of the shared lxml node;
here the updated copy lives in `xmlChunks`.) -/
def stageAugments (url pfx : String) :
    ParseState → List YinElem → Except PyError ParseState
  | st, [] => .ok st
  | st, aug :: rest => do
    let target ← pyAttr aug "target-node"
    let staged : YinElem :=
      { aug with attrib := setKV (setKV aug.attrib pfxAttr pfx) nsAttr url }
    let chunks :=
      match lookupKV st.xmlChunks target with
      | none => st.xmlChunks ++ [(target, [staged])]
      | some l => setKV st.xmlChunks target (l ++ [staged])
    stageAugments url pfx { st with xmlChunks := chunks } rest

/-- Embeds `ConfigModel._parse_xml_chunk_identities`: normalize the `base`
child's name (stripping a YANG prefix) and attach a `modelns` subelement
recording the declaring file's namespace, under `base` when present, else under
the identity itself. -/
def stageIdentities (url : String) :
    ParseState → List YinElem → Except PyError ParseState
  | st, [] => .ok st
  | st, ident :: rest => do
    let modelns : YinElem := ⟨"modelns", [("uri", url)], []⟩
    let staged ←
      match findChildByTag ident baseTag with
      | some baseElem => do
        let bname ← pyAttr baseElem "name"
        let newBase : YinElem :=
          { baseElem with
            attrib := setKV baseElem.attrib "name" (stripNsPfxIfPresent bname)
            children := baseElem.children ++ [modelns] }
        let newChildren := ident.children.map (fun c => if c.tag == baseTag then newBase else c)
        pure { ident with children := newChildren }
      | none => pure { ident with children := ident.children ++ [modelns] }
    stageIdentities url { st with identityElems := st.identityElems ++ [staged] } rest

/-- Embeds `ConfigModel._parse_xml_file` (minus the grouping resolution, see the
module note): read the global namespace, and when the configured prefix occurs
in the namespace URL, stage the file's containers, augments and identities. -/
def parseXmlFile (cfgElemName : String) (st : ParseState) (file : YinElem) :
    Except PyError ParseState := do
  let (url, pfx) ← getGlobalNamespace file
  if pyIn st.configPfx url then do
    let st1 ← stageContainers cfgElemName url pfx st
      (file.children.filter (fun c => c.tag == containerTag))
    let st2 ← stageAugments url pfx st1 (findDescendantsList augmentTag file.children)
    stageIdentities url st2 (file.children.filter (fun c => c.tag == identityTag))
  else
    return st

/-- The freshly constructed `ConfigModel.__init__` state. -/
def initParseState (cfgPfx : String) : ParseState :=
  ⟨none, cfgPfx, "", [], []⟩

/-- The maps `parse` leaves on a `ConfigModel` instance, plus the auxiliary
identity tables used while building them. -/
structure SchemaMaps where
  namespace_map : List (String × (String × String))
  container_map : List (String × List String)
  identity_map : List (String × List (String × String))
  identityPfxMap : List (String × String)
  identityPathMap : List (String × String)
deriving Repr

/-- Embeds `ConfigModel._define_namespace`. -/
def defineNamespace (maps : SchemaMaps) (path pfx ns : String) : SchemaMaps :=
  { maps with
    namespace_map := setKV maps.namespace_map path (pfx, ns)
    identityPfxMap := setKV maps.identityPfxMap ns pfx }

/-- Embeds `ConfigModel._define_container`. -/
def defineContainer (maps : SchemaMaps) (path : String) (keys : List String) : SchemaMaps :=
  { maps with container_map := setKV maps.container_map path keys }

mutual

/-- Embeds `ConfigModel._combine_xml_chunks`: splice every staged augment whose
target matches the accumulated prefixed path into the tree, then search the
children.  The Python recursion can revisit freshly spliced children and so has
no structural bound; the explicit bound (decreased on every recursive step)
models Python's recursion limit, whose exhaustion raises `RecursionError`
(`recursionError` here).  No property proved below exercises the bound. -/
def combineXmlChunks (chunks : List (String × List YinElem)) :
    Nat → YinElem → String → String → Except PyError YinElem
  | 0, _, _, _ => .error .recursionError
  | fuel + 1, container, targetPath, fileNsPfx => do
    let merged : YinElem :=
      match lookupKV chunks targetPath with
      | none => container
      | some l => { container with children := container.children ++ l }
    let newChildren ← searchXmlChunks chunks fuel merged.children targetPath fileNsPfx
    return { merged with children := newChildren }

/-- Embeds the `for child in container` loop of
`ConfigModel._search_for_xml_chunks`: recurse through augment/choice/case
wrappers with the same target path, and into containers/lists with the target
path extended by the child's prefixed name. -/
def searchXmlChunks (chunks : List (String × List YinElem)) :
    Nat → List YinElem → String → String → Except PyError (List YinElem)
  | _, [], _, _ => .ok []
  | 0, _ :: _, _, _ => .error .recursionError
  | fuel + 1, child :: rest, targetPath, fileNsPfx => do
    let nsPfx :=
      match lookupKV child.attrib pfxAttr with
      | some p => p
      | none => fileNsPfx
    let child' ←
      if child.tag == augmentTag || child.tag == choiceTag || child.tag == caseTag then do
        let inner ← searchXmlChunks chunks fuel child.children targetPath nsPfx
        pure { child with children := inner }
      else if child.tag == containerTag || child.tag == listTag then do
        let name ← pyAttr child "name"
        let newTarget := targetPath ++ "/" ++ nsPfx ++ ":" ++ name
        combineXmlChunks chunks fuel child newTarget nsPfx
      else
        pure child
    let rest' ← searchXmlChunks chunks fuel rest targetPath fileNsPfx
    return (child' :: rest')

end

/-- Embeds `ConfigModel._append_elem_to_path`. -/
def appendElemToPath (path : String) (child : YinElem) : Except PyError String := do
  let name ← pyAttr child "name"
  return path ++ "/" ++ name

/-- Embeds `ConfigModel._parse_container`: record an augment-originated child's
own namespace, collect its `key` values, and record it in `container_map`. -/
def parseContainerElem (maps : SchemaMaps) (path : String) (parent child : YinElem) :
    Except PyError SchemaMaps := do
  let childPath ← appendElemToPath path child
  let maps1 ←
    if parent.tag == augmentTag then do
      let p ← pyAttr parent pfxAttr
      let n ← pyAttr parent nsAttr
      pure (defineNamespace maps childPath p n)
    else
      pure maps
  let keys ← collectKeys child.children
  return defineContainer maps1 childPath keys
where
  collectKeys : List YinElem → Except PyError (List String)
    | [] => .ok []
    | item :: rest => do
      let tail ← collectKeys rest
      if item.tag == keyTag then do
        let v ← pyAttr item "value"
        pure (pySplit v ++ tail)
      else
        pure tail

/-- Embeds `ConfigModel._parse_leaf`, with the closest `augment` ancestor of
the walk (the source computes it with an XPath ancestor query) passed down
explicitly: record an augmented leaf's own namespace, and for an `identityref`
leaf record its base name in the identity path table. -/
def parseLeafElem (maps : SchemaMaps) (path : String) (closestAug : Option YinElem)
    (leaf : YinElem) : Except PyError SchemaMaps := do
  let maps1 ←
    match closestAug with
    | some aug => do
      let leafPath ← appendElemToPath path leaf
      let p ← pyAttr aug pfxAttr
      let n ← pyAttr aug nsAttr
      pure (defineNamespace maps leafPath p n)
    | none => pure maps
  match findChildByTag leaf typeTag with
  | some typeElem => do
    let tname ← pyAttr typeElem "name"
    if tname = "identityref" then
      match findChildByTag typeElem baseTag with
      | some baseElem => do
        let bname ← pyAttr baseElem "name"
        let leafPath ← appendElemToPath path leaf
        pure { maps1 with identityPathMap := setKV maps1.identityPathMap leafPath bname }
      | none => pure maps1
    else
      pure maps1
  | none => pure maps1

mutual

/-- Embeds `ConfigModel._walk_containers_recursive` on one node: walk the
node's children with the node as their parent, threading the nearest enclosing
`augment` element for `_get_closest_augment_ancestor`. -/
def walkContainers (maps : SchemaMaps) (path : String) (closestAug : Option YinElem) :
    YinElem → Except PyError SchemaMaps
  | .mk tag attrib children =>
    walkContainersList maps path closestAug (YinElem.mk tag attrib children) children

/-- The `for child in parent` loop of `_walk_containers_recursive`: recurse
through augment (updating the nearest-augment marker) and choice/case wrappers
with the same path, record containers/lists and descend with an extended path,
and record leaves. -/
def walkContainersList (maps : SchemaMaps) (path : String) (closestAug : Option YinElem)
    (parent : YinElem) : List YinElem → Except PyError SchemaMaps
  | [] => .ok maps
  | child :: rest => do
    let maps1 ←
      if child.tag == augmentTag then
        walkContainers maps path (some child) child
      else if child.tag == choiceTag || child.tag == caseTag then
        walkContainers maps path closestAug child
      else if child.tag == containerTag || child.tag == listTag then do
        let m ← parseContainerElem maps path parent child
        let childPath ← appendElemToPath path child
        walkContainers m childPath closestAug child
      else if child.tag == leafTag || child.tag == leafListTag then
        parseLeafElem maps path closestAug child
      else
        pure maps
    walkContainersList maps1 path closestAug parent rest

end

/-- Embeds `ConfigModel._find_identities` together with
`_get_identity_prefix`: collect every staged identity whose `base` matches, and
translate its declaring namespace to a prefix. -/
def findIdentities (identityElems : List YinElem) (identityPfxMap : List (String × String))
    (baseName : String) : Except PyError (List (String × String)) :=
  go identityElems
where
  go : List YinElem → Except PyError (List (String × String))
    | [] => .ok []
    | child :: rest => do
      match findChildByTag child baseTag with
      | some baseElem => do
        let bname ← pyAttr baseElem "name"
        if bname = baseName then
          match findChildByTag baseElem "modelns" with
          | none => .error (.configModelParseError "No namespace defined for modelns")
          | some nsElem => do
            let uri ← pyAttr nsElem "uri"
            match lookupKV identityPfxMap uri with
            | none => .error (.keyError uri)
            | some pfx => do
              let name ← pyAttr child "name"
              let tail ← go rest
              pure (setKV tail name pfx)
        else
          go rest
      | none => go rest

/-- Embeds `ConfigModel._parse_identities`. -/
def parseIdentities (identityElems : List YinElem) (maps : SchemaMaps) :
    Except PyError SchemaMaps :=
  go maps maps.identityPathMap
where
  go : SchemaMaps → List (String × String) → Except PyError SchemaMaps
    | maps, [] => .ok maps
    | maps, (path, baseName) :: rest => do
      let vals ← findIdentities identityElems maps.identityPfxMap baseName
      go { maps with identity_map := setKV maps.identity_map path vals } rest

/-- Embeds `ConfigModel._parse_combined_xml`: seed the maps with the root
element's namespace and (key-less) container entry, walk the combined tree, and
resolve the staged identities. -/
def parseCombinedXml (cfgElemName : String) (st : ParseState) (combined : YinElem) :
    Except PyError SchemaMaps := do
  let maps0 : SchemaMaps := ⟨[], [], [], [], []⟩
  let maps1 := defineContainer (defineNamespace maps0 cfgElemName st.configPfx st.configNs)
    cfgElemName []
  let maps2 ← walkContainers maps1 cfgElemName none combined
  parseIdentities st.identityElems maps2

/-- Embeds `ConfigModel.parse`.  `files` is the reverse-sorted list of parsed
schema documents the glob produced.  After staging every file the staged
chunks are combined into `_config_root` — which is `None` when no file offered
a top-level container named `cfgElemName`, so that `_combine_xml_chunks`
either calls `None.append(...)` (an `AttributeError`) when an augment targets
the root path, or iterates `for child in None` (a `TypeError`) — and the
combined tree is walked into the lookup maps. -/
def configModelParse (cfgElemName cfgPfx : String) (fuel : Nat) (files : List YinElem) :
    Except PyError SchemaMaps := do
  let st ← files.foldlM (parseXmlFile cfgElemName) (initParseState cfgPfx)
  let targetPath := "/" ++ st.configPfx ++ ":" ++ cfgElemName
  match st.configRoot with
  | none =>
    match lookupKV st.xmlChunks targetPath with
    | some (_ :: _) => .error (.attributeError "'NoneType' object has no attribute 'append'")
    | _ => .error (.typeError "'NoneType' object is not iterable")
  | some root => do
    let combined ← combineXmlChunks st.xmlChunks fuel root targetPath st.configPfx
    parseCombinedXml cfgElemName st combined

/-!
Auxiliary definitions for stating the verified properties, plus concrete
fixtures the witnesses and counterexamples evaluate the embedding on.
-/

/-- The element names of the builder's open elements, innermost first. -/
def frameNames (b : Builder) : List ElementName := b.stack.map Frame.name

/-- The token list actually handed to `_process_config_tokens`: the dispatch of
`_process_config_line` deletes a leading `delete`/`create` token. -/
def effectiveTokens : List String → List String
  | "delete" :: rest => rest
  | "create" :: rest => rest
  | toks => toks

/-- The stack-shape invariant maintained while compiling: below the synthesized
root element (which carries the NETCONF base namespace and the requested tag)
there is exactly one open XML element per entry of the compiler's element-name
stack. -/
def StackInv (tag : String) (b : Builder) (cs : List String) : Prop :=
  ∃ ns_, frameNames b = ns_ ++ [ElementName.qname netconfBase tag] ∧ ns_.length = cs.length

/-- Whether an `Except` result is a success. -/
def exceptIsOk {ε α : Type} : Except ε α → Bool
  | .ok _ => true
  | .error _ => false

/-- The element-name stack a successful `_process_config_line` step returns. -/
def okStack : Except PyError (Builder × List String) → Option (List String)
  | .ok (_, s) => some s
  | .error _ => none

/-- Fixture: a schema with a `config` root container and an `authority`
container inside it, in the `urn:t128` namespace. -/
def mAuth : ConfigModel :=
  { namespace_map := [("config", ("t128", "urn:t128"))]
  , container_map := [("config", []), ("config/authority", [])]
  , identity_map := [] }

/-- Fixture: a schema whose `config/security` leaf is identity-typed, accepting
the identity value `aes1` with prefix `authy`. -/
def mIdent : ConfigModel :=
  { namespace_map := [("config", ("t128", "urn:t128"))]
  , container_map := [("config", [])]
  , identity_map := [("config/security", [("aes1", "authy")])] }

/-- Fixture: a schema model with no entries at all. -/
def mEmpty : ConfigModel := ⟨[], [], []⟩

/-- Fixture: a single open parent element for exercising one leaf step. -/
def rootFrame : Frame := ⟨.plain "root", [], [], []⟩

/-- Fixture: a builder with just `rootFrame` open. -/
def bRoot : Builder := ⟨[rootFrame], none⟩

/-- Fixture: the builder state after compiling the single line `config` against
`mAuth` starting from `initBuilder "config"`. -/
def bAuth1 : Builder :=
  ⟨[ ⟨.qname "urn:t128" "config", [], [("t128", "urn:t128")], [.text "\n"]⟩
   , ⟨.qname netconfBase "config", [], [], [.text "\n", .text ""]⟩ ], none⟩

/-- Fixture: a well-formed YIN module declaring a namespace and prefix whose
only top-level container is named `authority`, not `config`. -/
def fileNoRoot : YinElem :=
  ⟨qnameStr yinNamespace "module", [("name", "authority")],
    [ ⟨qnameStr yinNamespace "namespace", [("uri", "http://128technology.com/t128")], []⟩
    , ⟨qnameStr yinNamespace "prefix", [("value", "t128")], []⟩
    , ⟨qnameStr yinNamespace "container", [("name", "authority")],
        [⟨qnameStr yinNamespace "leaf", [("name", "name")],
          [⟨qnameStr yinNamespace "type", [("name", "string")], []⟩]⟩]⟩ ]⟩

/-!
Lemmas about the tree builder and the per-line compilation step.
-/

lemma frameNames_builderData (b : Builder) (s : String) :
    frameNames (builderData b s) = frameNames b := by
  cases b with
  | mk stack last => cases stack <;> rfl

lemma frameNames_builderSetTop (b : Builder) (k : ElementName) (v : String) :
    frameNames (builderSetTop b k v) = frameNames b := by
  cases b with
  | mk stack last => cases stack <;> rfl

lemma frameNames_setOperation (b : Builder) (op : Option String) :
    frameNames (setOperation b op) = frameNames b := by
  unfold setOperation
  split <;> first | rfl | apply frameNames_builderSetTop

lemma frameNames_builderStart (b : Builder) (n : ElementName)
    (a : List (ElementName × String)) (ns_ : List (String × String)) :
    frameNames (builderStart b n a ns_) = n :: frameNames b := rfl

lemma builderData_stack_ne_nil (b : Builder) (s : String) (h : b.stack ≠ []) :
    (builderData b s).stack ≠ [] := by
  cases b with
  | mk stack last => cases stack with
    | nil => exact absurd rfl h
    | cons f fs => simp [builderData]

lemma builderEnd_ok_names (b : Builder) (n : ElementName) (b' : Builder)
    (h : builderEnd b n = .ok b') :
    frameNames b ≠ [] ∧ (frameNames b).head? = some n ∧
      frameNames b' = (frameNames b).tail := by
  cases b with
  | mk stack last =>
    cases stack with
    | nil => exact absurd h (by simp [builderEnd])
    | cons f fs =>
      by_cases hn : f.name = n
      · cases fs with
        | nil =>
          simp only [builderEnd, hn, if_pos rfl] at h
          refine ⟨by simp [frameNames], by simp [frameNames, hn], ?_⟩
          cases h.symm
          simp [frameNames]
        | cons g gs =>
          simp only [builderEnd, hn, if_pos rfl] at h
          refine ⟨by simp [frameNames], by simp [frameNames, hn], ?_⟩
          cases h.symm
          simp [frameNames]
      · simp [builderEnd, hn] at h

lemma builderEnd_cons_nil (f : Frame) (lst : Option Node) (n : ElementName)
    (h : f.name = n) :
    builderEnd ⟨[f], lst⟩ n =
      .ok ⟨[], some (.elem f.name f.attrs f.nsmap f.children)⟩ := by
  simp [builderEnd, h]

lemma builderEnd_cons_cons (f g : Frame) (gs : List Frame) (lst : Option Node)
    (n : ElementName) (h : f.name = n) :
    builderEnd ⟨f :: g :: gs, lst⟩ n =
      .ok ⟨{ g with children := g.children ++ [.elem f.name f.attrs f.nsmap f.children] } :: gs,
        some (.elem f.name f.attrs f.nsmap f.children)⟩ := by
  simp [builderEnd, h]

lemma setOperation_start (b : Builder) (n : ElementName) (ns_ : List (String × String))
    (op : Option String) :
    setOperation (builderStart b n [] ns_) op =
      { b with stack := ⟨n, opAttrs op, ns_, []⟩ :: b.stack } := by
  unfold setOperation opAttrs builderStart builderSetTop setAttr
  split <;> rfl

lemma processConfigTokens_nil (m : ConfigModel) (b : Builder) (cs : List String)
    (op : Option String) : processConfigTokens m b cs [] op = .error .indexError := rfl

lemma processConfigTokens_container (m : ConfigModel) (b : Builder) (cs : List String)
    (t : String) (rest : List String) (op : Option String)
    (hc : isPathContainer m cs t = true) :
    processConfigTokens m b cs (t :: rest) op =
      .ok (builderData
        (setOperation
          (builderStart (builderData b (indentOf cs)) (getElementName m (cs ++ [t]) t) []
            (getNsmap m cs t)) op) "\n", cs ++ [t]) := by
  simp [processConfigTokens, hc]

lemma builderData_cons (f : Frame) (fs : List Frame) (lst : Option Node) (s : String) :
    builderData ⟨f :: fs, lst⟩ s =
      ⟨{ f with children := f.children ++ [.text s] } :: fs, lst⟩ := rfl

lemma leafBuilderEnd (f : Frame) (fs : List Frame) (lst : Option Node)
    (cs : List String) (en : ElementName) (nsm : List (String × String))
    (op : Option String) (dataStr : String) :
    builderEnd
        (builderData
          (setOperation (builderStart (builderData ⟨f :: fs, lst⟩ (indentOf cs)) en [] nsm) op)
          dataStr) en =
      .ok ⟨{ f with children := f.children ++
            [.text (indentOf cs), .elem en (opAttrs op) nsm [.text dataStr]] } :: fs,
          some (.elem en (opAttrs op) nsm [.text dataStr])⟩ := by
  rw [builderData_cons, setOperation_start, builderData_cons,
    builderEnd_cons_cons _ _ _ _ _ rfl]
  simp

lemma processConfigTokens_leaf (m : ConfigModel) (f : Frame) (fs : List Frame)
    (lst : Option Node) (cs : List String) (t : String) (rest : List String)
    (op : Option String)
    (hc : isPathContainer m cs t = false) (hi : isPathIdentityType m cs t = false) :
    processConfigTokens m ⟨f :: fs, lst⟩ cs (t :: rest) op =
      .ok (⟨{ f with children := f.children ++
            [.text (indentOf cs),
             .elem (getElementName m cs t) (opAttrs op) (getNsmap m cs t)
               [.text (String.intercalate " " rest)],
             .text "\n"] } :: fs,
          some (.elem (getElementName m cs t) (opAttrs op) (getNsmap m cs t)
            [.text (String.intercalate " " rest)])⟩, cs) := by
  simp only [processConfigTokens, hc, hi, Bool.false_eq_true, if_false]
  rw [leafBuilderEnd]
  simp [builderData_cons, List.append_assoc]

lemma processConfigTokens_leaf_identity (m : ConfigModel) (f : Frame) (fs : List Frame)
    (lst : Option Node) (cs : List String) (t v : String) (vrest : List String)
    (op : Option String) (entry : List (String × String)) (pfx : String)
    (hc : isPathContainer m cs t = false)
    (hent : lookupKV m.identity_map (joinPath (cs ++ [t])) = some entry)
    (hv : lookupKV entry v = some pfx) :
    processConfigTokens m ⟨f :: fs, lst⟩ cs (t :: v :: vrest) op =
      .ok (⟨{ f with children := f.children ++
            [.text (indentOf cs),
             .elem (getElementName m cs t) (opAttrs op) (getNsmap m cs t)
               [.text (String.intercalate " " ((pfx ++ ":" ++ v) :: vrest))],
             .text "\n"] } :: fs,
          some (.elem (getElementName m cs t) (opAttrs op) (getNsmap m cs t)
            [.text (String.intercalate " " ((pfx ++ ":" ++ v) :: vrest))])⟩, cs) := by
  have hi : isPathIdentityType m cs t = true := by
    simp [isPathIdentityType, hent]
  simp only [processConfigTokens, hc, hi, Bool.false_eq_true, if_false, if_true,
    checkPfx, hent, hv]
  rw [leafBuilderEnd]
  simp [builderData_cons, List.append_assoc]

lemma processConfigTokens_identity_missing_value (m : ConfigModel) (b : Builder)
    (cs : List String) (t v : String) (vrest : List String) (op : Option String)
    (entry : List (String × String))
    (hc : isPathContainer m cs t = false)
    (hent : lookupKV m.identity_map (joinPath (cs ++ [t])) = some entry)
    (hv : lookupKV entry v = none) :
    processConfigTokens m b cs (t :: v :: vrest) op = .error (.keyError v) := by
  have hi : isPathIdentityType m cs t = true := by
    simp [isPathIdentityType, hent]
  simp [processConfigTokens, hc, hi, checkPfx, hent, hv]

lemma processConfigTokens_identity_no_value (m : ConfigModel) (b : Builder)
    (cs : List String) (t : String) (op : Option String)
    (entry : List (String × String))
    (hc : isPathContainer m cs t = false)
    (hent : lookupKV m.identity_map (joinPath (cs ++ [t])) = some entry) :
    processConfigTokens m b cs [t] op = .error .indexError := by
  have hi : isPathIdentityType m cs t = true := by
    simp [isPathIdentityType, hent]
  simp [processConfigTokens, hc, hi, checkPfx, hent]

lemma processConfigTokens_ok_cases (m : ConfigModel) (b : Builder) (cs : List String)
    (toks : List String) (op : Option String) (b' : Builder) (cs' : List String)
    (h : processConfigTokens m b cs toks op = .ok (b', cs')) :
    ∃ t rest, toks = t :: rest ∧
      ((isPathContainer m cs t = true ∧ cs' = cs ++ [t] ∧
          frameNames b' = getElementName m (cs ++ [t]) t :: frameNames b) ∨
       (isPathContainer m cs t = false ∧ cs' = cs ∧ frameNames b' = frameNames b)) := by
  cases toks with
  | nil => exact absurd h (by simp [processConfigTokens])
  | cons t rest =>
    refine ⟨t, rest, rfl, ?_⟩
    by_cases hc : isPathContainer m cs t
    · left
      rw [processConfigTokens_container m b cs t rest op hc] at h
      injection h with h
      injection h with hb hcs
      refine ⟨hc, hcs.symm, ?_⟩
      rw [← hb, frameNames_builderData, frameNames_setOperation, frameNames_builderStart,
        frameNames_builderData]
    · right
      rw [Bool.not_eq_true] at hc
      simp only [processConfigTokens, hc, Bool.false_eq_true, if_false] at h
      split at h
      · exact absurd h (by simp)
      · rename_i b4 toks' heq
        split at h
        · exact absurd h (by simp)
        · rename_i b5 heq2
          injection h with h
          injection h with hb hcs
          have hnames := builderEnd_ok_names _ _ _ heq2
          refine ⟨hc, hcs.symm, ?_⟩
          rw [← hb, frameNames_builderData]
          rw [hnames.2.2, frameNames_builderData, frameNames_setOperation,
            frameNames_builderStart, frameNames_builderData]
          rfl

lemma processExitToken_nil (m : ConfigModel) (b : Builder) :
    processExitToken m b [] = .error .indexError := rfl

lemma processExitToken_ok_cases (m : ConfigModel) (b : Builder) (cs : List String)
    (b' : Builder) (cs' : List String)
    (h : processExitToken m b cs = .ok (b', cs')) :
    cs ≠ [] ∧ cs' = cs.dropLast ∧ frameNames b ≠ [] ∧
      frameNames b' = (frameNames b).tail := by
  cases cs with
  | nil => exact absurd h (by simp [processExitToken])
  | cons c cr =>
    simp only [processExitToken] at h
    split at h
    · exact absurd h (by simp)
    · rename_i b2 heq
      injection h with h
      injection h with hb hcs
      have hnames := builderEnd_ok_names _ _ _ heq
      rw [frameNames_builderData] at hnames
      refine ⟨by simp, hcs.symm, hnames.1, ?_⟩
      rw [← hb, frameNames_builderData, hnames.2.2]

lemma quoteStrip_nil_iff (toks : List String) : quoteStrip toks = [] ↔ toks = [] := by
  constructor
  · intro h
    cases toks with
    | nil => rfl
    | cons t ts =>
      cases ts with
      | nil =>
        simp only [quoteStrip] at h
        split at h <;> simp at h
      | cons t1 rest =>
        simp only [quoteStrip] at h
        split at h
        · have hlen := congrArg List.length h
          simp [List.length_set] at hlen
        · simp at h
  · intro h
    rw [h]
    rfl

lemma processConfigLine_exit (m : ConfigModel) (b : Builder) (cs : List String)
    (l : String) (h : (quoteStrip (pySplit l)).head? = some "exit") :
    processConfigLine m b cs l = processExitToken m b cs := by
  unfold processConfigLine
  cases hsp : pySplit l with
  | nil => rw [hsp] at h; simp [quoteStrip] at h
  | cons a as =>
    rw [hsp] at h
    cases hq : quoteStrip (a :: as) with
    | nil => rw [hq] at h; simp at h
    | cons t0 rest =>
      rw [hq] at h
      simp only [List.head?] at h
      injection h with h0
      simp [hq, h0]

lemma processConfigLine_dispatch_delete (m : ConfigModel) (b : Builder) (cs : List String)
    (l : String) (rest : List String)
    (h : quoteStrip (pySplit l) = "delete" :: rest) :
    processConfigLine m b cs l = processConfigTokens m b cs rest (some "delete") := by
  unfold processConfigLine
  cases hsp : pySplit l with
  | nil => rw [hsp] at h; simp [quoteStrip] at h
  | cons a as =>
    rw [hsp] at h
    simp [h]

lemma processConfigLine_dispatch_create (m : ConfigModel) (b : Builder) (cs : List String)
    (l : String) (rest : List String)
    (h : quoteStrip (pySplit l) = "create" :: rest) :
    processConfigLine m b cs l = processConfigTokens m b cs rest (some "create") := by
  unfold processConfigLine
  cases hsp : pySplit l with
  | nil => rw [hsp] at h; simp [quoteStrip] at h
  | cons a as =>
    rw [hsp] at h
    simp [h]

lemma processConfigLine_dispatch_plain (m : ConfigModel) (b : Builder) (cs : List String)
    (l : String) (t0 : String) (rest : List String)
    (h : quoteStrip (pySplit l) = t0 :: rest)
    (h1 : t0 ≠ "exit") (h2 : t0 ≠ "delete") (h3 : t0 ≠ "create") :
    processConfigLine m b cs l = processConfigTokens m b cs (t0 :: rest) none := by
  unfold processConfigLine
  cases hsp : pySplit l with
  | nil => rw [hsp] at h; simp [quoteStrip] at h
  | cons a as =>
    rw [hsp] at h
    simp [h, h1, h2, h3]

lemma effectiveTokens_cons_ne (t0 : String) (ts : List String)
    (h2 : t0 ≠ "delete") (h3 : t0 ≠ "create") :
    effectiveTokens (t0 :: ts) = t0 :: ts := by
  unfold effectiveTokens
  split
  · rename_i heq; injection heq with ha _; exact absurd ha h2
  · rename_i heq; injection heq with ha _; exact absurd ha h3
  · rfl

lemma processConfigLine_step (m : ConfigModel) (b : Builder) (cs : List String)
    (l : String) (b' : Builder) (cs' : List String)
    (h : processConfigLine m b cs l = .ok (b', cs')) :
    ((quoteStrip (pySplit l)).head? = some "exit" ∧ cs ≠ [] ∧ cs' = cs.dropLast ∧
       frameNames b ≠ [] ∧ frameNames b' = (frameNames b).tail) ∨
    (∃ t rest, effectiveTokens (quoteStrip (pySplit l)) = t :: rest ∧
      ((isPathContainer m cs t = true ∧ cs' = cs ++ [t] ∧
          frameNames b' = getElementName m (cs ++ [t]) t :: frameNames b) ∨
       (isPathContainer m cs t = false ∧ cs' = cs ∧ frameNames b' = frameNames b))) := by
  cases hq : quoteStrip (pySplit l) with
  | nil =>
    rw [quoteStrip_nil_iff] at hq
    unfold processConfigLine at h
    rw [hq] at h
    exact absurd h (by simp)
  | cons t0 ts =>
    by_cases h1 : t0 = "exit"
    · left
      subst h1
      rw [processConfigLine_exit m b cs l (by rw [hq]; rfl)] at h
      have := processExitToken_ok_cases m b cs b' cs' h
      exact ⟨rfl, this⟩
    · right
      by_cases h2 : t0 = "delete"
      · subst h2
        rw [processConfigLine_dispatch_delete m b cs l ts hq] at h
        obtain ⟨t, rest, hts, hcase⟩ := processConfigTokens_ok_cases m b cs ts _ b' cs' h
        exact ⟨t, rest, hts, hcase⟩
      · by_cases h3 : t0 = "create"
        · subst h3
          rw [processConfigLine_dispatch_create m b cs l ts hq] at h
          obtain ⟨t, rest, hts, hcase⟩ := processConfigTokens_ok_cases m b cs ts _ b' cs' h
          exact ⟨t, rest, hts, hcase⟩
        · rw [processConfigLine_dispatch_plain m b cs l t0 ts hq h1 h2 h3] at h
          obtain ⟨t, rest, hts, hcase⟩ := processConfigTokens_ok_cases m b cs _ _ b' cs' h
          refine ⟨t, rest, ?_, hcase⟩
          rw [effectiveTokens_cons_ne t0 ts h2 h3]
          exact hts

lemma processLines_append_ok (m : ConfigModel) (xs ys : List String) (n : Nat)
    (b : Builder) (s : List String) (b1 : Builder) (s1 : List String)
    (h : processLines m xs n b s = .ok (b1, s1)) :
    processLines m (xs ++ ys) n b s = processLines m ys (n + xs.length) b1 s1 := by
  induction xs generalizing n b s with
  | nil =>
    simp only [processLines] at h
    injection h with h
    injection h with hb hs
    subst hb
    subst hs
    simp [processLines]
  | cons l ls ih =>
    simp only [List.cons_append, processLines, List.append_eq] at h ⊢
    by_cases hc : isLineEmptyOrComment l
    · rw [if_pos hc] at h ⊢
      rw [ih (n + 1) b s h, List.length_cons,
        show n + 1 + ls.length = n + (ls.length + 1) by omega]
    · rw [if_neg hc] at h ⊢
      split at h
      · exact absurd h (by simp)
      · rename_i b2 s2 heq
        have h2 := ih (n + 1) b2 s2 h
        rw [List.length_cons, show n + (ls.length + 1) = n + 1 + ls.length by omega]
        exact h2

lemma stackInv_step (tag : String) (m : ConfigModel) (b : Builder) (cs : List String)
    (l : String) (b' : Builder) (cs' : List String)
    (h : processConfigLine m b cs l = .ok (b', cs'))
    (hinv : StackInv tag b cs) : StackInv tag b' cs' := by
  obtain ⟨ns_, hframes, hlen⟩ := hinv
  rcases processConfigLine_step m b cs l b' cs' h with
    ⟨_, hcs, hcs', _, hfr'⟩ | ⟨t, rest, _, ⟨_, hcs', hfr'⟩ | ⟨_, hcs', hfr'⟩⟩
  · cases ns_ with
    | nil =>
      exact absurd (List.length_eq_zero.mp hlen.symm ▸ rfl : cs = []) hcs
    | cons x xs =>
      refine ⟨xs, ?_, ?_⟩
      · rw [hfr', hframes]
        rfl
      · rw [hcs', List.length_dropLast]
        simp only [List.length_cons] at hlen
        omega
  · refine ⟨getElementName m (cs ++ [t]) t :: ns_, ?_, ?_⟩
    · rw [hfr', hframes]
      rfl
    · simp only [List.length_cons, hcs', List.length_append, List.length_cons,
        List.length_nil]
      omega
  · refine ⟨ns_, by rw [hfr', hframes], ?_⟩
    rw [hcs']
    exact hlen

lemma processLines_inv (tag : String) (m : ConfigModel) (ls : List String) :
    ∀ n b cs b' cs', StackInv tag b cs →
      processLines m ls n b cs = .ok (b', cs') → StackInv tag b' cs' := by
  induction ls with
  | nil =>
    intro n b cs b' cs' hinv h
    simp only [processLines] at h
    injection h with h
    injection h with hb hcs
    rw [← hb, ← hcs]
    exact hinv
  | cons l rest ih =>
    intro n b cs b' cs' hinv h
    simp only [processLines] at h
    by_cases hc : isLineEmptyOrComment l
    · rw [if_pos hc] at h
      exact ih _ _ _ _ _ hinv h
    · rw [if_neg hc] at h
      cases hstep : processConfigLine m b cs l with
      | error e => rw [hstep] at h; exact absurd h (by simp)
      | ok p =>
        cases p with
        | mk b1 cs1 =>
          rw [hstep] at h
          exact ih _ _ _ _ _ (stackInv_step tag m b cs l b1 cs1 hstep hinv) h

lemma stackInv_init (tag : String) : StackInv tag (initBuilder tag) [] :=
  ⟨[], rfl, rfl⟩

lemma frameNames_nil_iff (b : Builder) : frameNames b = [] ↔ b.stack = [] := by
  unfold frameNames
  exact List.map_eq_nil_iff

lemma builderClose_ok_stack (b : Builder) (r : Node) (h : builderClose b = .ok r) :
    b.stack = [] := by
  unfold builderClose at h
  split at h
  · rename_i heq1
    exact heq1
  · exact absurd h (by simp)

lemma builderClose_error_of_ne (b : Builder) (h : b.stack ≠ []) :
    builderClose b = .error (.assertionError "missing end tags") := by
  unfold builderClose
  cases hb : b.stack with
  | nil => exact absurd hb h
  | cons f fs => rfl

lemma convert_success_of_empty (m : ConfigModel) (lines : List String) (tag : String)
    (b : Builder)
    (h : processLines m lines 1 (initBuilder tag) [] = .ok (b, [])) :
    ∃ root, convertConfigListToNetconfXml m lines tag = .ok root := by
  obtain ⟨ns_, hfr, hlen⟩ :=
    processLines_inv tag m lines 1 (initBuilder tag) [] b [] (stackInv_init tag) h
  have hns : ns_ = [] := List.length_eq_zero.mp (by rw [hlen]; rfl)
  subst hns
  cases b with
  | mk stack lst =>
    cases stack with
    | nil => simp [frameNames] at hfr
    | cons f fs =>
      cases fs with
      | cons g gs => simp [frameNames] at hfr
      | nil =>
        have hname : f.name = .qname netconfBase tag := by
          simpa [frameNames] using hfr
        refine ⟨.elem f.name f.attrs f.nsmap f.children, ?_⟩
        simp only [convertConfigListToNetconfXml, h]
        rw [builderEnd_cons_nil f lst _ hname]
        simp [builderData, builderClose]

lemma convert_ok_empty_stack (m : ConfigModel) (lines : List String) (tag : String)
    (root : Node) (h : convertConfigListToNetconfXml m lines tag = .ok root) :
    ∃ b, processLines m lines 1 (initBuilder tag) [] = .ok (b, []) := by
  simp only [convertConfigListToNetconfXml] at h
  split at h
  · exact absurd h (by simp)
  · rename_i b st heq
    split at h
    · exact absurd h (by simp)
    · rename_i b2 heq2
      split at h
      · exact absurd h (by simp)
      · rename_i root' heq3
        obtain ⟨ns_, hfr, hlen⟩ :=
          processLines_inv tag m lines 1 (initBuilder tag) [] b st (stackInv_init tag) heq
        have hclosed := builderClose_ok_stack _ _ heq3
        have hnames2 := builderEnd_ok_names _ _ _ heq2
        have hb2nil : frameNames b2 = [] := by
          rw [frameNames_nil_iff]
          have := congrArg Builder.stack
            (show builderData b2 "\n" = ⟨(builderData b2 "\n").stack, (builderData b2 "\n").last⟩
              from rfl)
          cases hb2 : b2.stack with
          | nil => rfl
          | cons f fs =>
            rw [show b2 = ⟨f :: fs, b2.last⟩ from by rw [← hb2]] at hclosed
            simp [builderData] at hclosed
        have hns : ns_ = [] := by
          rw [hb2nil] at hnames2
          cases ns_ with
          | nil => rfl
          | cons x xs =>
            rw [hfr] at hnames2
            simp at hnames2
        subst hns
        have : st = [] := List.length_eq_zero.mp (by rw [← hlen]; rfl)
        subst this
        exact ⟨b, heq⟩

lemma convert_error_of_nonempty (m : ConfigModel) (lines : List String) (tag : String)
    (b : Builder) (st : List String)
    (h : processLines m lines 1 (initBuilder tag) [] = .ok (b, st)) (hne : st ≠ []) :
    ∃ e, convertConfigListToNetconfXml m lines tag = .error e := by
  obtain ⟨ns_, hfr, hlen⟩ :=
    processLines_inv tag m lines 1 (initBuilder tag) [] b st (stackInv_init tag) h
  cases hend : builderEnd b (.qname netconfBase tag) with
  | error e =>
    refine ⟨⟨lines.length, lines.getLastD "(start)", pyMessage e⟩, ?_⟩
    simp only [convertConfigListToNetconfXml, h, hend]
  | ok b2 =>
    have hnames2 := builderEnd_ok_names _ _ _ hend
    have hb2 : frameNames b2 ≠ [] := by
      rw [hnames2.2.2, hfr]
      cases ns_ with
      | nil => exact absurd (List.length_eq_zero.mp hlen.symm ▸ rfl : st = []) hne
      | cons x xs => simp
    have hstack2 : (builderData b2 "\n").stack ≠ [] := by
      apply builderData_stack_ne_nil
      intro hn
      exact hb2 ((frameNames_nil_iff b2).mpr hn)
    refine ⟨⟨lines.length, lines.getLastD "(start)",
      pyMessage (.assertionError "missing end tags")⟩, ?_⟩
    simp only [convertConfigListToNetconfXml, h, hend,
      builderClose_error_of_ne _ hstack2]

lemma resolveNS_of_lookup (m : ConfigModel) (p : List String) (pr : String × String)
    (h : lookupKV m.namespace_map (joinPath p) = some pr) :
    resolveNS m p = some pr := by
  unfold resolveNS
  cases hp : p.reverse with
  | nil =>
    have : p = [] := by simpa using congrArg List.reverse hp
    subst this
    simpa [resolveNSAux] using h
  | cons s rest =>
    have hpr : (s :: rest).reverse = p := by
      rw [← hp, List.reverse_reverse]
    simp only [resolveNSAux, hpr, h]

lemma resolveNSAux_skip (m : ConfigModel) (P : List String) :
    ∀ ext : List String,
      (∀ k, 1 ≤ k → k ≤ ext.length →
        lookupKV m.namespace_map (joinPath (P ++ ext.take k)) = none) →
      resolveNSAux m (ext.reverse ++ P.reverse) = resolveNSAux m P.reverse := by
  intro ext
  induction ext using List.reverseRecOn with
  | nil => intro _; simp
  | append_singleton ys y ih =>
    intro h
    have hkey : lookupKV m.namespace_map (joinPath (P ++ (ys ++ [y]))) = none := by
      have := h (ys ++ [y]).length (by simp) (le_refl _)
      rwa [List.take_length] at this
    have hrw : (ys ++ [y]).reverse ++ P.reverse = y :: (ys.reverse ++ P.reverse) := by
      simp
    rw [hrw]
    have hjoin : ((y :: (ys.reverse ++ P.reverse)) : List String).reverse =
        P ++ (ys ++ [y]) := by
      simp
    simp only [resolveNSAux, hjoin, hkey]
    exact ih (fun k hk1 hk2 => by
      have := h k hk1 (le_trans hk2 (by simp))
      rwa [List.take_append_of_le_length hk2] at this)

lemma resolveNSAux_none (m : ConfigModel) :
    ∀ p : List String,
      (∀ k, k ≤ p.length → lookupKV m.namespace_map (joinPath (p.take k)) = none) →
      resolveNSAux m p.reverse = none := by
  intro p
  induction p using List.reverseRecOn with
  | nil =>
    intro h
    simpa [resolveNSAux, joinPath] using h 0 (by simp)
  | append_singleton ys y ih =>
    intro h
    have hkey : lookupKV m.namespace_map (joinPath (ys ++ [y])) = none := by
      have := h (ys ++ [y]).length (le_refl _)
      rwa [List.take_length] at this
    have hrw : ((ys ++ [y]) : List String).reverse = y :: ys.reverse := by simp
    rw [hrw]
    have hjoin : ((y :: ys.reverse) : List String).reverse = ys ++ [y] := by simp
    simp only [resolveNSAux, hjoin, hkey]
    exact ih (fun k hk => by
      have := h k (le_trans hk (by simp))
      rwa [List.take_append_of_le_length hk] at this)

lemma resolveNS_none (m : ConfigModel) (p : List String)
    (h : ∀ k, k ≤ p.length → lookupKV m.namespace_map (joinPath (p.take k)) = none) :
    resolveNS m p = none :=
  resolveNSAux_none m p h

/-- C1: for every `SchemaModel` and every xpath `P` recorded in `namespace_map`,
the namespace-resolution walk of `_get_element_name` returns exactly the
`(prefix, namespace_uri)` pair stored for `P`; and for every strict descendant
path of `P` none of whose intermediate extensions (up to and including the
descendant itself) has its own `namespace_map` entry, the walk returns that
same pair, obtained by popping trailing path segments from the full path until
a defined entry is found. -/
theorem resolveNamespaceAncestorFallback (m : ConfigModel) (P : List String)
    (pr : String × String)
    (hP : lookupKV m.namespace_map (joinPath P) = some pr) :
    resolveNS m P = some pr ∧
    ∀ ext : List String, ext ≠ [] →
      (∀ k, 1 ≤ k → k ≤ ext.length →
        lookupKV m.namespace_map (joinPath (P ++ ext.take k)) = none) →
      resolveNS m (P ++ ext) = some pr := by
  refine ⟨resolveNS_of_lookup m P pr hP, ?_⟩
  intro ext _ hnone
  unfold resolveNS
  rw [List.reverse_append, resolveNSAux_skip m P ext hnone]
  exact resolveNS_of_lookup m P pr hP

/-- Witness for C1: in `mAuth`, the path `config` is recorded and the strict
descendant `config/authority/name` has no closer declaration, so both resolve
to `("t128", "urn:t128")`. -/
theorem resolveNamespaceAncestorFallbackWitness :
    resolveNS mAuth ["config"] = some ("t128", "urn:t128") ∧
    resolveNS mAuth ["config", "authority", "name"] = some ("t128", "urn:t128") := by
  have h := resolveNamespaceAncestorFallback mAuth ["config"] ("t128", "urn:t128") rfl
  refine ⟨h.1, h.2 ["authority", "name"] (by simp) ?_⟩
  intro k hk1 hk2
  have hk2' : k ≤ 2 := by simpa using hk2
  interval_cases k <;> rfl

/-- C8, as stated, is false on the code: `_get_element_name` never raises when
no prefix of the path has a `namespace_map` entry.  At the concrete input
below, resolution returns the bare unqualified token and the surrounding
line-processing step succeeds rather than failing with `SchemaError`. -/
theorem noNamespaceFallbackCounterexample :
    getElementName mEmpty [] "foo" = .plain "foo" ∧
    processConfigLine mEmpty bRoot [] "foo bar" =
      .ok (⟨[⟨.plain "root", [], [],
        [.text "", .elem (.plain "foo") [] [] [.text "bar"], .text "\n"]⟩],
        some (.elem (.plain "foo") [] [] [.text "bar"])⟩, []) := ⟨rfl, rfl⟩

/-- C8 (amended): for every xpath such that no prefix of the path, including
the root segment and the empty path, has an entry in `namespace_map`,
`_get_element_name` does not fail: it returns the bare token without namespace
qualification. -/
theorem unqualifiedFallbackAmended (m : ConfigModel) (stack : List String) (token : String)
    (h : ∀ k, k ≤ stack.length + 1 →
      lookupKV m.namespace_map (joinPath ((stack ++ [token]).take k)) = none) :
    getElementName m stack token = .plain token := by
  have haug : isPathAugmentedType m stack token = false := by
    have h1 := h (stack.length + 1) (le_refl _)
    rw [show stack.length + 1 = (stack ++ [token]).length by simp,
      List.take_length] at h1
    simp [isPathAugmentedType, h1]
  have hres : resolveNS m stack = none := by
    apply resolveNS_none
    intro k hk
    have h2 := h k (by omega)
    rwa [List.take_append_of_le_length hk] at h2
  simp [getElementName, haug, hres]

/-- Witness for C8 (amended): with an empty `namespace_map` the element name
for token `b` under stack `[a]` is the unqualified `b`. -/
theorem unqualifiedFallbackAmendedWitness :
    getElementName mEmpty ["a"] "b" = .plain "b" :=
  unqualifiedFallbackAmended mEmpty ["a"] "b"
    (fun k hk => by
      have hk' : k ≤ 2 := by simpa using hk
      interval_cases k <;> rfl)

lemma processConfigTokens_stack_cases (m : ConfigModel) (b : Builder) (cs : List String)
    (toks : List String) (op : Option String) (b' : Builder) (cs' : List String)
    (t : String) (rest : List String)
    (h : processConfigTokens m b cs toks op = .ok (b', cs')) (ht : toks = t :: rest) :
    (isPathContainer m cs t = true → cs' = cs ++ [t]) ∧
    (isPathContainer m cs t = false → cs' = cs) := by
  subst ht
  obtain ⟨t', rest', hts, hcase⟩ := processConfigTokens_ok_cases m b cs _ op b' cs' h
  injection hts with h1 h2
  subst h1
  rcases hcase with ⟨hc, hcs', _⟩ | ⟨hc, hcs', _⟩
  · exact ⟨fun _ => hcs', fun hf => Bool.noConfusion (hc.symm.trans hf)⟩
  · exact ⟨fun ht2 => Bool.noConfusion (hc.symm.trans ht2), fun _ => hcs'⟩

/-- C2: during every successful compile, each processed config line changes the
compiler's element-name stack by exactly -1 frame when it is an `exit` line, by
exactly +1 frame (pushing the token) when its effective first token opens a
container/list path, and by 0 frames when that token is a leaf; and the stack,
which starts empty, is empty again at the end of the line sequence exactly when
closing the synthesized root element (and hence the whole compile) succeeds. -/
theorem stackDisciplineDuringCompile (m : ConfigModel) :
    (∀ b cs l b' cs', processConfigLine m b cs l = .ok (b', cs') →
      (((quoteStrip (pySplit l)).head? = some "exit" →
          cs ≠ [] ∧ cs'.length + 1 = cs.length) ∧
       (∀ t rest, (quoteStrip (pySplit l)).head? ≠ some "exit" →
          effectiveTokens (quoteStrip (pySplit l)) = t :: rest →
          (isPathContainer m cs t = true → cs' = cs ++ [t]) ∧
          (isPathContainer m cs t = false → cs' = cs)))) ∧
    (∀ lines tag,
      (∃ root, convertConfigListToNetconfXml m lines tag = .ok root) ↔
      (∃ b, processLines m lines 1 (initBuilder tag) [] = .ok (b, []))) := by
  constructor
  · intro b cs l b' cs' h
    constructor
    · intro hhd
      rw [processConfigLine_exit m b cs l hhd] at h
      have hx := processExitToken_ok_cases m b cs b' cs' h
      refine ⟨hx.1, ?_⟩
      rw [hx.2.1, List.length_dropLast]
      have : cs.length ≠ 0 := fun h0 => hx.1 (List.length_eq_zero.mp h0)
      omega
    · intro t rest hne heff
      cases hq : quoteStrip (pySplit l) with
      | nil =>
        rw [quoteStrip_nil_iff] at hq
        unfold processConfigLine at h
        rw [hq] at h
        exact absurd h (by simp)
      | cons t0 ts =>
        rw [hq] at hne heff
        by_cases h1 : t0 = "exit"
        · subst h1
          exact absurd rfl hne
        · by_cases h2 : t0 = "delete"
          · subst h2
            rw [processConfigLine_dispatch_delete m b cs l ts hq] at h
            have heff2 : ts = t :: rest := heff
            exact processConfigTokens_stack_cases m b cs ts _ b' cs' t rest h heff2
          · by_cases h3 : t0 = "create"
            · subst h3
              rw [processConfigLine_dispatch_create m b cs l ts hq] at h
              have heff2 : ts = t :: rest := heff
              exact processConfigTokens_stack_cases m b cs ts _ b' cs' t rest h heff2
            · rw [processConfigLine_dispatch_plain m b cs l t0 ts hq h1 h2 h3] at h
              rw [effectiveTokens_cons_ne t0 ts h2 h3] at heff
              exact processConfigTokens_stack_cases m b cs _ _ b' cs' t rest h heff
  · intro lines tag
    constructor
    · rintro ⟨root, h⟩
      exact convert_ok_empty_stack m lines tag root h
    · rintro ⟨b, h⟩
      exact convert_success_of_empty m lines tag b h

/-- Witness for C2: compiling `config` / `exit` against `mAuth` succeeds, so by
the equivalence the run ends with an empty element-name stack. -/
theorem stackDisciplineDuringCompileWitness :
    ∃ b, processLines mAuth ["config", "exit"] 1 (initBuilder "config") [] = .ok (b, []) :=
  ((stackDisciplineDuringCompile mAuth).2 ["config", "exit"] "config").mp ⟨_, rfl⟩

/-- C3: whenever an `exit` line is reached with the compiler's stack empty (all
earlier lines processed successfully, leaving an empty stack), the compile
fails with a `ConfigParseError` that carries exactly that line's 1-based number
and text (with the underlying `IndexError` of `stack[-1]` as its cause), never
those of an earlier or later line. -/
theorem unmatchedExitErrorsAtOffendingLine (m : ConfigModel) (tag : String)
    (pre post : List String) (l : String) (b : Builder)
    (hpre : processLines m pre 1 (initBuilder tag) [] = .ok (b, []))
    (hskip : isLineEmptyOrComment l = false)
    (hexit : (quoteStrip (pySplit l)).head? = some "exit") :
    convertConfigListToNetconfXml m (pre ++ l :: post) tag =
      .error ⟨pre.length + 1, l, pyMessage .indexError⟩ := by
  have hstep : processConfigLine m b [] l = .error .indexError := by
    rw [processConfigLine_exit m b [] l hexit]
    rfl
  have hrun : processLines m (pre ++ l :: post) 1 (initBuilder tag) [] =
      .error (1 + pre.length, l, .indexError) := by
    rw [processLines_append_ok m pre (l :: post) 1 (initBuilder tag) [] b [] hpre]
    simp only [processLines, hskip, Bool.false_eq_true, if_false, hstep]
  simp only [convertConfigListToNetconfXml, hrun]
  rw [show 1 + pre.length = pre.length + 1 by omega]

/-- Witness for C3: `config` / `exit` / `exit` against `mAuth` fails at line 3,
the unmatched `exit`. -/
theorem unmatchedExitErrorsAtOffendingLineWitness :
    convertConfigListToNetconfXml mAuth ["config", "exit", "exit"] "config" =
      .error ⟨3, "exit", pyMessage .indexError⟩ :=
  unmatchedExitErrorsAtOffendingLine mAuth "config" ["config", "exit"] [] "exit" _
    rfl rfl rfl

/-- C4: whenever the compiler's stack is still non-empty after the whole line
sequence has been processed (the final `exit` for the root is missing), the
compile fails with a `ConfigParseError` and returns no tree: the root never
auto-closes on end of input. -/
theorem missingFinalExitFails (m : ConfigModel) (lines : List String) (tag : String)
    (b : Builder) (st : List String)
    (h : processLines m lines 1 (initBuilder tag) [] = .ok (b, st)) (hne : st ≠ []) :
    ∃ e, convertConfigListToNetconfXml m lines tag = .error e :=
  convert_error_of_nonempty m lines tag b st h hne

/-- Witness for C4: the single line `config` against `mAuth` leaves the stack
at `[config]`, and the compile indeed fails. -/
theorem missingFinalExitFailsWitness :
    ∃ e, convertConfigListToNetconfXml mAuth ["config"] "config" = .error e :=
  missingFinalExitFails mAuth ["config"] "config" _ ["config"] rfl (by simp)

/-- C5, as stated, is false on the code: when the leaf's path is present in
`identity_map` but the value is absent from the registered identity values, the
lookup `key[tokens[1]]` in `_check_prefix` raises `KeyError` and the compile
fails, instead of writing the value unchanged.  Concretely, with
`config/security` registered as identity-typed accepting only `aes1`, the line
`security des` makes the compile fail at that line with the `KeyError`. -/
theorem identityValueMissCounterexample :
    convertConfigListToNetconfXml mIdent ["config", "security des", "exit"] "config" =
      .error ⟨2, "security des", "'des'"⟩ := rfl

/-- C5 (amended): for a leaf line with a value token, (a) when `identity_map`
contains the leaf's full path and maps the value to a prefix, the emitted
element text is the value prefixed as `prefix:value`; (b) when the path is
absent from `identity_map`, the miss is not an error and the value is written
unchanged; but (c) when the path is present and the value is absent from the
registered identity values, the step fails with `KeyError` on the value. -/
theorem identityPrefixLookup :
    (∀ (m : ConfigModel) (f : Frame) (fs : List Frame) (lst : Option Node)
        (cs : List String) (t v : String) (vrest : List String) (op : Option String)
        (entry : List (String × String)) (pfx : String),
      isPathContainer m cs t = false →
      lookupKV m.identity_map (joinPath (cs ++ [t])) = some entry →
      lookupKV entry v = some pfx →
      processConfigTokens m ⟨f :: fs, lst⟩ cs (t :: v :: vrest) op =
        .ok (⟨{ f with children := f.children ++
              [.text (indentOf cs),
               .elem (getElementName m cs t) (opAttrs op) (getNsmap m cs t)
                 [.text (String.intercalate " " ((pfx ++ ":" ++ v) :: vrest))],
               .text "\n"] } :: fs,
            some (.elem (getElementName m cs t) (opAttrs op) (getNsmap m cs t)
              [.text (String.intercalate " " ((pfx ++ ":" ++ v) :: vrest))])⟩, cs)) ∧
    (∀ (m : ConfigModel) (f : Frame) (fs : List Frame) (lst : Option Node)
        (cs : List String) (t v : String) (vrest : List String) (op : Option String),
      isPathContainer m cs t = false →
      lookupKV m.identity_map (joinPath (cs ++ [t])) = none →
      processConfigTokens m ⟨f :: fs, lst⟩ cs (t :: v :: vrest) op =
        .ok (⟨{ f with children := f.children ++
              [.text (indentOf cs),
               .elem (getElementName m cs t) (opAttrs op) (getNsmap m cs t)
                 [.text (String.intercalate " " (v :: vrest))],
               .text "\n"] } :: fs,
            some (.elem (getElementName m cs t) (opAttrs op) (getNsmap m cs t)
              [.text (String.intercalate " " (v :: vrest))])⟩, cs)) ∧
    (∀ (m : ConfigModel) (b : Builder) (cs : List String) (t v : String)
        (vrest : List String) (op : Option String) (entry : List (String × String)),
      isPathContainer m cs t = false →
      lookupKV m.identity_map (joinPath (cs ++ [t])) = some entry →
      lookupKV entry v = none →
      processConfigTokens m b cs (t :: v :: vrest) op = .error (.keyError v)) := by
  refine ⟨?_, ?_, ?_⟩
  · intro m f fs lst cs t v vrest op entry pfx hc hent hv
    exact processConfigTokens_leaf_identity m f fs lst cs t v vrest op entry pfx hc hent hv
  · intro m f fs lst cs t v vrest op hc hent
    have hi : isPathIdentityType m cs t = false := by
      simp [isPathIdentityType, hent]
    exact processConfigTokens_leaf m f fs lst cs t (v :: vrest) op hc hi
  · intro m b cs t v vrest op entry hc hent hv
    exact processConfigTokens_identity_missing_value m b cs t v vrest op entry hc hent hv

/-- Witness for C5 (amended), part (a): against `mIdent`, the leaf line tokens
`security aes1` emit the element text `authy:aes1`. -/
theorem identityPrefixLookupWitness :
    processConfigTokens mIdent ⟨[rootFrame], none⟩ ["config"] ["security", "aes1"] none =
      .ok (⟨[{ rootFrame with children := rootFrame.children ++
            [.text (indentOf ["config"]),
             .elem (getElementName mIdent ["config"] "security") (opAttrs none)
               (getNsmap mIdent ["config"] "security")
               [.text (String.intercalate " " ["authy:aes1"])],
             .text "\n"] }],
          some (.elem (getElementName mIdent ["config"] "security") (opAttrs none)
            (getNsmap mIdent ["config"] "security")
            [.text (String.intercalate " " ["authy:aes1"])])⟩, ["config"]) :=
  identityPrefixLookup.1 mIdent rootFrame [] none ["config"] "security" "aes1" [] none
    [("aes1", "authy")] "authy" rfl rfl rfl

/-- C6: a config line whose first token is `delete` (resp. `create`) is
processed by stripping that token and handing the remaining tokens to the
normal entry processing with the corresponding operation; the resulting
element — whether container or leaf — carries the NETCONF
`{urn:ietf:params:xml:ns:netconf:base:1.0}operation` attribute with value
`delete` (resp. `create`); in particular the line `delete description force`
inside a container compiles to
`<description operation="delete">force</description>`. -/
theorem deleteCreateOperationAttr :
    (∀ (m : ConfigModel) (b : Builder) (cs : List String) (l : String)
        (rest : List String),
      quoteStrip (pySplit l) = "delete" :: rest →
      processConfigLine m b cs l = processConfigTokens m b cs rest (some "delete")) ∧
    (∀ (m : ConfigModel) (b : Builder) (cs : List String) (l : String)
        (rest : List String),
      quoteStrip (pySplit l) = "create" :: rest →
      processConfigLine m b cs l = processConfigTokens m b cs rest (some "create")) ∧
    (∀ (m : ConfigModel) (b : Builder) (cs : List String) (t : String)
        (rest : List String) (op : String),
      (op = "delete" ∨ op = "create") →
      isPathContainer m cs t = true →
      ∃ b', processConfigTokens m b cs (t :: rest) (some op) = .ok (b', cs ++ [t]) ∧
        b'.stack.head?.map Frame.attrs = some [(operationElemName, op)]) ∧
    (∀ (m : ConfigModel) (f : Frame) (fs : List Frame) (lst : Option Node)
        (cs : List String) (t : String) (rest : List String) (op : String),
      (op = "delete" ∨ op = "create") →
      isPathContainer m cs t = false →
      isPathIdentityType m cs t = false →
      processConfigTokens m ⟨f :: fs, lst⟩ cs (t :: rest) (some op) =
        .ok (⟨{ f with children := f.children ++
              [.text (indentOf cs),
               .elem (getElementName m cs t) [(operationElemName, op)] (getNsmap m cs t)
                 [.text (String.intercalate " " rest)],
               .text "\n"] } :: fs,
            some (.elem (getElementName m cs t) [(operationElemName, op)] (getNsmap m cs t)
              [.text (String.intercalate " " rest)])⟩, cs)) ∧
    processConfigLine mAuth bAuth1 ["config"] "delete description force" =
      .ok (⟨[ ⟨.qname "urn:t128" "config", [], [("t128", "urn:t128")],
              [.text "\n", .text "    ",
               .elem (.qname "urn:t128" "description") [(operationElemName, "delete")] []
                 [.text "force"],
               .text "\n"]⟩
            , ⟨.qname netconfBase "config", [], [], [.text "\n", .text ""]⟩ ],
          some (.elem (.qname "urn:t128" "description") [(operationElemName, "delete")] []
            [.text "force"])⟩, ["config"]) := by
  refine ⟨?_, ?_, ?_, ?_, rfl⟩
  · intro m b cs l rest hq
    exact processConfigLine_dispatch_delete m b cs l rest hq
  · intro m b cs l rest hq
    exact processConfigLine_dispatch_create m b cs l rest hq
  · intro m b cs t rest op hop hc
    have hattrs : opAttrs (some op) = [(operationElemName, op)] := by
      rcases hop with h | h <;> subst h <;> rfl
    refine ⟨_, processConfigTokens_container m b cs t rest (some op) hc, ?_⟩
    rw [setOperation_start]
    simp [builderData, hattrs]
  · intro m f fs lst cs t rest op hop hc hi
    have hattrs : opAttrs (some op) = [(operationElemName, op)] := by
      rcases hop with h | h <;> subst h <;> rfl
    have := processConfigTokens_leaf m f fs lst cs t rest (some op) hc hi
    rw [hattrs] at this
    exact this

/-- Witness for C6 (container part): a `delete` on the container `config` opens
an element carrying `operation="delete"`. -/
theorem deleteCreateOperationAttrWitness :
    ∃ b', processConfigTokens mAuth (initBuilder "config") [] ["config"] (some "delete") =
      .ok (b', ["config"]) ∧
      b'.stack.head?.map Frame.attrs = some [(operationElemName, "delete")] :=
  deleteCreateOperationAttr.2.2.1 mAuth (initBuilder "config") [] "config" [] "delete"
    (Or.inl rfl) rfl

lemma map_eq_self_of (l : List String) (f : String → String)
    (h : ∀ x ∈ l, f x = x) : l.map f = l := by
  induction l with
  | nil => rfl
  | cons a as ih =>
    rw [List.map_cons, h a (by simp), ih (fun x hx => h x (by simp [hx]))]

/-- C9, as stated, is false on the code: list input is *not* trimmed, so a line
of one space is skipped as empty when the config is passed as a string but
raises (tokenizing to no tokens, hence `IndexError` at the quote handling) when
the same lines are passed as a list. -/
theorem stringListInputCounterexample :
    exceptIsOk (convertConfigStringToNetconfXml mAuth "config\n \nexit" "config") = true ∧
    convertConfigListToNetconfXml mAuth ["config", " ", "exit"] "config" =
      .error ⟨2, " ", pyMessage .indexError⟩ ∧
    convertConfigStringToNetconfXml mAuth "config\n \nexit" "config" ≠
      convertConfigListToNetconfXml mAuth ["config", " ", "exit"] "config" := by
  refine ⟨rfl, rfl, ?_⟩
  intro h
  have h2 := congrArg exceptIsOk h
  rw [show exceptIsOk (convertConfigStringToNetconfXml mAuth "config\n \nexit" "config")
      = true from rfl,
    show exceptIsOk (convertConfigListToNetconfXml mAuth ["config", " ", "exit"] "config")
      = false from rfl] at h2
  exact Bool.noConfusion h2

/-- C9 (amended): string input is split on line breaks and each line trimmed;
hence compiling a string whose lines are already trimmed equals compiling the
list of its lines, but in general list input is processed without trimming and
the two forms can differ. -/
theorem stringListInputAgreeOnTrimmed (m : ConfigModel) (s : String) (tag : String)
    (h : ∀ l ∈ pySplitLines s, pyStrip l = l) :
    convertConfigStringToNetconfXml m s tag =
      convertConfigListToNetconfXml m (pySplitLines s) tag := by
  unfold convertConfigStringToNetconfXml convertConfigStringToList
  rw [map_eq_self_of (pySplitLines s) pyStrip h]

/-- Witness for C9 (amended): the two input forms agree on `config\nexit`. -/
theorem stringListInputAgreeOnTrimmedWitness :
    convertConfigStringToNetconfXml mAuth "config\nexit" "config" =
      convertConfigListToNetconfXml mAuth (pySplitLines "config\nexit") "config" :=
  stringListInputAgreeOnTrimmed mAuth "config\nexit" "config"
    (by
      intro l hl
      have : pySplitLines "config\nexit" = ["config", "exit"] := rfl
      rw [this] at hl
      simp only [List.mem_cons, List.not_mem_nil, or_false] at hl
      rcases hl with rfl | rfl <;> rfl)

/-- C10, as stated, is false on the code at the single-token line `"exit"`:
after quote stripping, the result is dispatched as the `exit` keyword (the
stack is popped and the open element closed), not used as an element-name
token; processing the same token as a normal entry would instead leave the
stack unchanged and emit an element.  The two runs below return different
stacks, so they are different. -/
theorem quotedKeywordCaptureCounterexample :
    okStack (processConfigLine mAuth bAuth1 ["config"] "\"exit\"") = some [] ∧
    okStack (processConfigTokens mAuth bAuth1 ["config"] ["exit"] none) =
      some ["config"] ∧
    processConfigLine mAuth bAuth1 ["config"] "\"exit\"" ≠
      processConfigTokens mAuth bAuth1 ["config"] ["exit"] none := by
  refine ⟨rfl, rfl, ?_⟩
  intro h
  have h2 := congrArg okStack h
  rw [show okStack (processConfigLine mAuth bAuth1 ["config"] "\"exit\"") = some []
      from rfl,
    show okStack (processConfigTokens mAuth bAuth1 ["config"] ["exit"] none) =
      some ["config"] from rfl] at h2
  simp at h2

/-- C10 (amended): a single-token line whose token starts and ends with a
double quote has its first and last characters stripped, and the result
becomes the line's first token: it is dispatched as the `exit` keyword when it
equals `exit`, and otherwise (when not a keyword) it is the element-name token
of a normal entry; on multi-token lines the stripping is applied to the second
and the last token and never to the first. -/
theorem quoteStrippingAmended :
    (∀ t : String, startsWithQuote t = true → endsWithQuote t = true →
        quoteStrip [t] = [stripLast (stripFirst t)]) ∧
    (∀ (m : ConfigModel) (b : Builder) (cs : List String) (l t0 : String),
        quoteStrip (pySplit l) = [t0] →
        t0 ≠ "exit" → t0 ≠ "delete" → t0 ≠ "create" →
        processConfigLine m b cs l = processConfigTokens m b cs [t0] none) ∧
    (∀ (m : ConfigModel) (b : Builder) (cs : List String) (l : String),
        quoteStrip (pySplit l) = ["exit"] →
        processConfigLine m b cs l = processExitToken m b cs) ∧
    (∀ (t0 t1 : String) (rest : List String),
        (quoteStrip (t0 :: t1 :: rest)).head? = some t0) ∧
    (∀ t0 t1 : String, startsWithQuote t1 = true → endsWithQuote t1 = true →
        quoteStrip [t0, t1] = [t0, stripLast (stripFirst t1)]) ∧
    (∀ (t0 t1 : String) (ys : List String) (y : String),
        startsWithQuote t1 = true → endsWithQuote y = true →
        quoteStrip (t0 :: t1 :: (ys ++ [y])) =
          t0 :: stripFirst t1 :: (ys ++ [stripLast y])) := by
  refine ⟨?_, ?_, ?_, ?_, ?_, ?_⟩
  · intro t hs he
    simp [quoteStrip, hs, he]
  · intro m b cs l t0 hq h1 h2 h3
    exact processConfigLine_dispatch_plain m b cs l t0 [] hq h1 h2 h3
  · intro m b cs l hq
    exact processConfigLine_exit m b cs l (by rw [hq]; rfl)
  · intro t0 t1 rest
    simp only [quoteStrip]
    split
    · rw [List.set_cons_succ, List.set_cons_zero]
      have hl : (t0 :: t1 :: rest).length - 1 = rest.length + 1 := by simp
      rw [hl, List.set_cons_succ]
      rfl
    · rfl
  · intro t0 t1 hs he
    simp [quoteStrip, hs, he]
  · intro t0 t1 ys y hs he
    have hlast : (t1 :: (ys ++ [y])).getLast (by simp) = y := by
      rw [List.getLast_cons (by simp), List.getLast_concat]
    simp only [quoteStrip, hlast, hs, he, Bool.and_self, if_true]
    rw [List.set_cons_succ, List.set_cons_zero]
    have hlen : (t0 :: t1 :: (ys ++ [y])).length - 1 = ys.length + 2 := by simp
    rw [hlen]
    rw [show (ys.length + 2) = (ys.length + 1) + 1 from rfl, List.set_cons_succ,
      List.set_cons_succ]
    rw [List.getD_cons_succ, List.getD_cons_succ]
    rw [List.getD_append_right ys [y] "" ys.length (le_refl _)]
    rw [List.set_append_right ys.length _ (le_refl _)]
    simp

/-- Witness for C10 (amended): the quoted single token `"ab"` is stripped to
`ab`. -/
theorem quoteStrippingAmendedWitness :
    quoteStrip ["\"ab\""] = ["ab"] :=
  quoteStrippingAmended.1 "\"ab\"" rfl rfl

/-- C7: the claim describes the intended behavior (`ConfigModelParseError` when
no schema file has a top-level container named like the configured root), but
the code never raises it for this condition: `_find_config_container_element`,
which contains exactly that error, is never called, and `parse` instead hands
`_config_root = None` to `_combine_xml_chunks`, whose `for child in container`
iteration over `None` raises a bare `TypeError`.  Evaluating the embedded
`parse` on a well-formed single-file schema whose only top-level container is
named `authority` exhibits the `TypeError`, which is not a
`ConfigModelParseError`. -/
theorem missingRootContainerTypeError :
    configModelParse "config" "" 1000 [fileNoRoot] =
      .error (.typeError "'NoneType' object is not iterable") ∧
    ∀ msg, PyError.typeError "'NoneType' object is not iterable" ≠
      PyError.configModelParseError msg :=
  ⟨rfl, fun _ h => PyError.noConfusion h⟩
